import Mathlib

/-!
Verification of the ACR slice-position measurement module
(`hazenlib/tasks/acr_slice_position.py`).

The numeric code is embedded over `ℚ` (the Python floats only undergo
linear arithmetic, comparisons and half-to-even rounding here, all of
which the rational model reproduces exactly on the inputs considered).
Profiles are `List ℚ`.  NumPy-specific semantics (circular `np.roll`,
Python slicing with negative indices, `np.round` half-to-even) are
modelled explicitly.
-/

namespace ACRSlicePosition

/-- Round half to even (the rounding used by the Python built-in `round`
and by `np.round`). -/
def rhe (q : ℚ) : ℤ :=
  if q - ⌊q⌋ < 1/2 then ⌊q⌋
  else if 1/2 < q - ⌊q⌋ then ⌊q⌋ + 1
  else if ⌊q⌋ % 2 = 0 then ⌊q⌋ else ⌊q⌋ + 1

/-- Python `round(x, 2)`: round half to even at two decimal places. -/
def round2 (q : ℚ) : ℚ := (rhe (q * 100) : ℚ) / 100

/-- Sum of a list of rationals. -/
def listSum (xs : List ℚ) : ℚ := xs.foldr (· + ·) 0

/-- NumPy maximum (`np.max`) over a non-empty array (junk value `0` on the empty list,
where NumPy would raise). -/
def listMax (xs : List ℚ) : ℚ := xs.foldl max (xs.headD 0)

/-- NumPy circular shift `np.roll xs k`; entry `i` of the result is entry
`(i - k) mod n` of the input. -/
def roll (xs : List ℚ) (k : ℤ) : List ℚ :=
  (List.range xs.length).map fun (i : ℕ) =>
    xs.getD ((((i : ℤ) - k).emod xs.length).toNat) 0

/-- Python slice `xs[a:b]` with the usual clamping and negative-index
resolution. -/
def pySlice (xs : List ℚ) (a b : ℤ) : List ℚ :=
  let n : ℤ := xs.length
  let s : ℤ := if a < 0 then max (n + a) 0 else min a n
  let e : ℤ := if b < 0 then max (n + b) 0 else min b n
  (xs.take e.toNat).drop s.toNat

/-- The sentinel error value `1e10` used when every residual sample of a lag
is invalid. -/
def sentinelErr : ℚ := 10000000000

/-- The list of residual samples that remain valid at a given lag
(`get_slice_position`, loop body, lines 288-296): the residual is
`static_line_R - np.roll(static_line_L, lag)`; for `lag > 0` the slice
`difference[:lag]` is set to NaN, otherwise the slice `difference[lag:]`
is (for `lag = 0` that Python slice is the whole array). -/
def validResiduals (sR sL : List ℚ) (lag : ℤ) : List ℚ :=
  if 0 < lag then (List.zipWith (· - ·) sR (roll sL lag)).drop lag.toNat
  else if lag < 0 then
    (List.zipWith (· - ·) sR (roll sL lag)).take
      (((List.zipWith (· - ·) sR (roll sL lag)).length : ℤ) + lag).toNat
  else []

/-- The error assigned to one lag (`get_slice_position`, line 299):
`1e10` if every residual sample is invalid, otherwise
`np.abs(np.nanmean(difference))`, the absolute value of the mean of the
valid residuals. -/
def errAtLag (sR sL : List ℚ) (lag : ℤ) : ℚ :=
  if (validResiduals sR sL lag).isEmpty then sentinelErr
  else |listSum (validResiduals sR sL lag) / (validResiduals sR sL lag).length|

/-- The lag array `np.linspace(-50, 50, 101, dtype=int)` (line 283). -/
def lagList : List ℤ := (List.range 101).map fun (i : ℕ) => ((i : ℤ) - 50)

/-- The per-lag error array `err` (lines 286-299). -/
def errArray (sR sL : List ℚ) : List ℚ := lagList.map (errAtLag sR sL)

/-- Fivefold linear-interpolation upsampling (lines 236-246): the original
profile `p` is sampled at abscissae `1, 2, ..., n` and re-sampled at
`1, 1 + 1/5, ..., n`, giving `5 * (n - 1) + 1` points; point `j` lies
between `p[j / 5]` and `p[j / 5 + 1]` at fraction `(j mod 5) / 5`. -/
def interp5 (p : List ℚ) : List ℚ :=
  (List.range (5 * (p.length - 1) + 1)).map fun j =>
    p.getD (j / 5) 0 + ((j % 5 : ℕ) : ℚ) / 5 * (p.getD (j / 5 + 1) 0 - p.getD (j / 5) 0)

/-- Modelled from the spec: `ACRObject.find_n_highest_peaks` is not part
of the sources; per the peak-finder contract of the spec it returns indices of
prominent local maxima of the signal, at least the given minimum height,
highest first.  Specialised here to `n = 1`: the index of the highest
strict local maximum whose value is at least `h` (earliest such index on
ties), or `none` when the signal has no qualifying local maximum. -/
def isPeakAt (s : List ℚ) (h : ℚ) (i : ℕ) : Bool :=
  0 < i && i + 1 < s.length &&
    decide (s.getD (i - 1) 0 < s.getD i 0) &&
    decide (s.getD (i + 1) 0 < s.getD i 0) &&
    decide (h ≤ s.getD i 0)

def findHighestPeak (s : List ℚ) (h : ℚ) : Option ℕ :=
  ((List.range s.length).filter (isPeakAt s h)).foldl
    (fun best i =>
      match best with
      | none => some i
      | some b => if s.getD b 0 < s.getD i 0 then some i else some b) none

/-- The directional-sign resolution (lines 270-274): `pos` is `1` when
`np.max(-delta[p-10 : p+10]) < np.max(delta[p-10 : p+10])`, else `-1`. -/
def signOf (delta : List ℚ) (p : ℕ) : ℤ :=
  if listMax ((pySlice delta ((p : ℤ) - 10) ((p : ℤ) + 10)).map (fun x => -x)) <
      listMax (pySlice delta ((p : ℤ) - 10) ((p : ℤ) + 10)) then 1 else -1

/-- The strictly positive entries of the error array, `err[err > 0]`
(line 302). -/
def posErrs (sR sL : List ℚ) : List ℚ :=
  (errArray sR sL).filter fun e => decide (0 < e)

/-- The minimum `np.min(err[err > 0])` (line 302); junk value `0` when no error is
positive (NumPy would raise on the empty minimum, but the lag-0 entry is
always the positive sentinel, so this cannot happen). -/
def minPosErr (sR sL : List ℚ) : ℚ :=
  (posErrs sR sL).foldl min ((posErrs sR sL).headD 0)

/-- The lag selected by the minimum-positive-error search
(lines 301-305): the first index `k` with `err[k] = min (err[err > 0])`
(`np.argwhere(...)[0]`), mapped through `lagList`. -/
def selectedLag (sR sL : List ℚ) : ℤ :=
  lagList.getD ((errArray sR sL).findIdx fun e => decide (e = minPosErr sR sL)) 0

/-- The difference of the two 5x-interpolated profiles (line 249). -/
def deltaOf (pL pR : List ℚ) : List ℚ :=
  List.zipWith (· - ·) (interp5 pL) (interp5 pR)

/-- The peak search over `|delta|` with minimum height
`0.5 * max |delta|` (lines 250-252). -/
def peakOf (pL pR : List ℚ) : Option ℕ :=
  findHighestPeak ((deltaOf pL pR).map (|·|)) (listMax ((deltaOf pL pR).map (|·|)) / 2)

/-- The signed shift selected for a given peak (lines 277-305): the
minimum-positive-error lag over the region-of-interest slices of the two
interpolated profiles, negated when the resolved sign is `1`. -/
def resolvedShift (pL pR : List ℚ) (p : ℕ) : ℤ :=
  if signOf (deltaOf pL pR) p = 1 then
    -selectedLag (pySlice (interp5 pR) ((p : ℤ) - 10) ((p : ℤ) + 10))
      (pySlice (interp5 pL) ((p : ℤ) - 10) ((p : ℤ) + 10))
  else
    selectedLag (pySlice (interp5 pR) ((p : ℤ) - 10) ((p : ℤ) + 10))
      (pySlice (interp5 pL) ((p : ℤ) - 10) ((p : ℤ) + 10))

/-- The full `ShiftMatcher` pipeline of `get_slice_position`
(lines 236-308), with the failure modes of its collaborators made
explicit: `none` when the interpolation preconditions fail (profiles of
unequal length, or fewer than two samples, where `scipy.interpolate`
raises), when the peak search over `|delta|` finds no peak (`peaks[0]`
raises `IndexError`), or when the region of interest is empty (`np.max`
raises).  On success it returns `pos * |shift| * (1/5) * res_y`. -/
def shiftMatch (pL pR : List ℚ) (resY : ℚ) : Option ℚ :=
  if pL.length = pR.length ∧ 2 ≤ pL.length then
    (peakOf pL pR).bind fun p =>
      if (pySlice (deltaOf pL pR) ((p : ℤ) - 10) ((p : ℤ) + 10)).isEmpty then none
      else
        some ((signOf (deltaOf pL pR) p : ℚ) * |(resolvedShift pL pR p : ℚ)| *
          (1/5) * resY)
  else none

/-- In `find_wedges`, the x-coordinate placement (lines 134-144): the two peak
indices of the absolute-difference profile are offset by the westmost
mask column; the wedge midpoints are `np.round` of
`min + 0.25 * width` and `max - 0.25 * width` with `width = max - min`. -/
def x_pts (wPoint p1 p2 : ℤ) : ℤ × ℤ :=
  let l1 := wPoint + p1
  let l2 := wPoint + p2
  let lo := min l1 l2
  let hi := max l1 l2
  let width := hi - lo
  (rhe ((lo : ℚ) + (width : ℚ) / 4), rhe ((hi : ℚ) - (width : ℚ) / 4))

/-- In `find_wedges`, the expected end row of the vertical search profile
(lines 150-153): `n_point + np.round(50 / res_y)` for the standard
phantom, overwritten with `n_point + np.round(35 / res_y)` when
`MediumACRPhantom` is set. -/
def end_point (nPoint : ℤ) (resY : ℚ) (mediumPhantom : Bool) : ℤ :=
  if mediumPhantom then nPoint + rhe (35 / resY) else nPoint + rhe (50 / resY)

/-- In `find_wedges`, the y-coordinate selection (lines 192-199), given the
northmost mask row and the two detected y peak locations: the fixed
geometric fallback when `y_locs[1] - y_locs[0] < 5 / res_y`, otherwise
`np.round(np.min(y_locs) + 0.25 * np.abs(np.diff(y_locs)))`. -/
def y_coord (nPoint y0 y1 : ℤ) (resY : ℚ) : ℤ :=
  if ((y1 - y0 : ℤ) : ℚ) < 5 / resY then nPoint + rhe (10 / resY)
  else rhe ((min y0 y1 : ℚ) + ((|y1 - y0| : ℤ) : ℚ) / 4)

/-- The message printed (and wrapped into the re-raised exception) when
the measurement of one image fails (`run`, lines 73-78). -/
def logMsg (desc err : String) : String :=
  "Could not calculate the bar length difference for " ++ desc ++
    " because of : " ++ err

/-- The batch loop of `run` (lines 67-78): images are processed in
order; a successful measurement contributes the entry
`(description, round(result, 2))`; the first failure aborts the whole
run with the logged message, discarding any partial results. -/
def runMeasure (measure : String → Except String ℚ) :
    List String → Except String (List (String × ℚ))
  | [] => Except.ok []
  | d :: rest =>
    match measure d with
    | Except.error e => Except.error (logMsg d e)
    | Except.ok v =>
      match runMeasure measure rest with
      | Except.error e => Except.error e
      | Except.ok l => Except.ok ((d, round2 v) :: l)

/-! Claim-side definitions, written from the wording of the specification, for
comparison with the source-derived definitions above.  -/

/-- The per-lag error as the specification words it: the mean of the
absolute residuals over valid samples, where the invalid (wrapped)
portion is the first `lag` samples for positive lag and the last `|lag|`
samples for negative lag (so nothing is invalid at lag 0), with the
sentinel only when every sample is invalid. -/
def claimedErrAtLag (sR sL : List ℚ) (lag : ℤ) : ℚ :=
  let diff := List.zipWith (· - ·) sR (roll sL lag)
  let v :=
    if 0 < lag then diff.drop lag.toNat
    else if lag < 0 then diff.take (diff.length - lag.natAbs)
    else diff
  if v.isEmpty then sentinelErr else listSum (v.map (|·|)) / v.length

/-- The valid sample indices of an `n`-sample residual at a given lag,
as the amended claim describes them: index `i` is valid exactly when
`0 < lag ∧ lag ≤ i` or `lag < 0 ∧ i < n + lag` (no index is valid at
lag 0). -/
def specValidIdx (n : ℕ) (lag : ℤ) : List ℕ :=
  (List.range n).filter fun (i : ℕ) =>
    decide ((0 < lag ∧ lag ≤ (i : ℤ)) ∨ (lag < 0 ∧ (i : ℤ) < (n : ℤ) + lag))

/-- The residual samples at the valid indices of `specValidIdx`. -/
def specVals (diff : List ℚ) (lag : ℤ) : List ℚ :=
  (specValidIdx diff.length lag).map fun (i : ℕ) => diff.getD i 0

/-- The per-lag error with the valid samples described by the explicit
index set `specValidIdx`: the absolute value of the mean of the valid
residuals, or the sentinel when no index is valid. -/
def specErrOf (diff : List ℚ) (lag : ℤ) : ℚ :=
  if (specVals diff lag).isEmpty then sentinelErr
  else |listSum (specVals diff lag) / (specVals diff lag).length|

/-- The amended per-lag error, applied to the residual
`static_R - roll static_L`. -/
def specErrAtLag (sR sL : List ℚ) (lag : ℤ) : ℚ :=
  specErrOf (List.zipWith (· - ·) sR (roll sL lag)) lag

/-!  Helper lemmas.  -/

theorem floor_le_rhe (q : ℚ) : ⌊q⌋ ≤ rhe q := by
  unfold rhe
  split_ifs <;> omega

theorem rhe_le_floor_add_one (q : ℚ) : rhe q ≤ ⌊q⌋ + 1 := by
  unfold rhe
  split_ifs <;> omega

theorem rhe_of_fract_lt (q : ℚ) (h : q - ⌊q⌋ < 1/2) : rhe q = ⌊q⌋ := by
  unfold rhe
  rw [if_pos h]

theorem rhe_mono {a b : ℚ} (hab : a ≤ b) : rhe a ≤ rhe b := by
  rcases lt_or_le ⌊a⌋ ⌊b⌋ with hf | hf
  · have h1 := rhe_le_floor_add_one a
    have h2 := floor_le_rhe b
    omega
  · have hf2 : ⌊a⌋ = ⌊b⌋ := le_antisymm (Int.floor_le_floor hab) hf
    have hfr : a - (⌊b⌋ : ℚ) ≤ b - (⌊b⌋ : ℚ) := by linarith
    unfold rhe
    rw [hf2]
    split_ifs <;> first | omega | linarith

theorem rhe_lt_of_add_le {a b : ℚ} (h : a + 3/2 ≤ b) : rhe a < rhe b := by
  have hfl : ⌊a⌋ + 1 ≤ ⌊b⌋ := by
    have h2 : ⌊a + 1⌋ ≤ ⌊b⌋ := Int.floor_le_floor (by linarith)
    rwa [Int.floor_add_one] at h2
  rcases eq_or_lt_of_le hfl with heq | hlt
  · have h1 : b < (⌊b⌋ : ℚ) + 1 := Int.lt_floor_add_one b
    have hfa : a - ⌊a⌋ < 1/2 := by
      rw [← heq] at h1
      push_cast at h1 ⊢
      linarith
    have ha : rhe a = ⌊a⌋ := rhe_of_fract_lt a hfa
    have hb := floor_le_rhe b
    omega
  · have h1 := rhe_le_floor_add_one a
    have h2 := floor_le_rhe b
    omega

/-!  C9: the lag-0 error is always the sentinel.  -/

/-- C9: for every pair of static region-of-interest segments, the error
assigned to lag 0 is exactly the sentinel `1e10`: the non-positive-lag
branch NaNs the slice `difference[0:]`, i.e. every sample, so the
all-invalid branch is always taken at lag 0. -/
theorem errAtLag_zero_sentinel (sR sL : List ℚ) : errAtLag sR sL 0 = sentinelErr := rfl

/-!  C5: the expected end-row of the vertical search profile.  -/

/-- C5 counterexample: for the compact (medium) phantom variant the code
computes `n_point + round(35 / res_y)`, not `round(35 / res_y)` as
claimed: at `n_point = 5`, `res_y = 1` the code yields 40, the claim 35. -/
theorem end_point_compact_counterexample : end_point 5 1 true ≠ rhe ((35 : ℚ) / 1) := by
  with_unfolding_all decide

/-- C5 amended: the expected end-row equals
`northmost_row + round(50mm / res_y)` for the standard phantom size and
`northmost_row + round(35mm / res_y)` for the compact phantom variant,
selected by the phantom-variant flag. -/
theorem end_point_characterisation (n : ℤ) (r : ℚ) :
    end_point n r false = n + rhe (50 / r) ∧ end_point n r true = n + rhe (35 / r) :=
  ⟨rfl, rfl⟩

/-!  C4: the y-coordinate fallback of the wedge locator.  -/

/-- C4: with the two detected y peaks in ascending order, whenever they
are closer than `5mm / res_y` the y coordinate is the fixed geometric
fallback `northmost_row + round(10mm / res_y)`; otherwise it is
`round(min(peak) + 0.25 * |peak difference|)`. -/
theorem y_coord_branches (n y0 y1 : ℤ) (r : ℚ) (hle : y0 ≤ y1) :
    (|((y1 - y0 : ℤ) : ℚ)| < 5 / r → y_coord n y0 y1 r = n + rhe (10 / r)) ∧
    (¬|((y1 - y0 : ℤ) : ℚ)| < 5 / r →
      y_coord n y0 y1 r = rhe ((min y0 y1 : ℚ) + ((|y1 - y0| : ℤ) : ℚ) / 4)) := by
  have hnn : (0 : ℚ) ≤ ((y1 - y0 : ℤ) : ℚ) := by
    exact_mod_cast sub_nonneg.2 hle
  have habs : |((y1 - y0 : ℤ) : ℚ)| = ((y1 - y0 : ℤ) : ℚ) := abs_of_nonneg hnn
  rw [habs]
  constructor <;> intro h
  · unfold y_coord
    rw [if_pos h]
  · unfold y_coord
    rw [if_neg h]

/-- C4 witness: at `n_point = 0`, peaks 3 and 4, `res_y = 1`, the peaks
are 1 pixel apart, closer than 5, and the fallback row `0 + round 10`
is produced. -/
theorem y_coord_branches_witness : y_coord 0 3 4 1 = 0 + rhe (10 / 1) :=
  (y_coord_branches 0 3 4 1 (by decide)).1 (by with_unfolding_all decide)

/-!  C6: ordering of the two wedge-centre columns.  -/

/-- C6 counterexample: with detected edge peaks 1 and 3 (westmost column
0) the code computes `np.round([1.5, 2.5]) = [2, 2]` under half-to-even
rounding, so the two wedge-centre columns coincide and `x_left < x_right`
(and `x_left ≠ x_right`) fails. -/
theorem x_pts_order_counterexample :
    (x_pts 0 1 3).1 = (x_pts 0 1 3).2 ∧ ¬(x_pts 0 1 3).1 < (x_pts 0 1 3).2 := by
  with_unfolding_all decide

/-- C6 amended: the wedge-centre columns always satisfy
`x_left ≤ x_right`, with strict inequality whenever the two detected
edges are at least 3 columns apart; equality can occur for edges 2
columns apart at an odd minimum column (rounding collapse). -/
theorem x_pts_order (w p1 p2 : ℤ) :
    (x_pts w p1 p2).1 ≤ (x_pts w p1 p2).2 ∧
    (3 ≤ |p2 - p1| → (x_pts w p1 p2).1 < (x_pts w p1 p2).2) := by
  unfold x_pts
  have hw0 : min (w + p1) (w + p2) ≤ max (w + p1) (w + p2) := min_le_max
  have hdiff : max (w + p1) (w + p2) - min (w + p1) (w + p2) = |p2 - p1| := by
    rw [max_sub_min_eq_abs]
    congr 1
    ring
  constructor
  · apply rhe_mono
    have h1 : (0 : ℚ) ≤ ((max (w + p1) (w + p2) - min (w + p1) (w + p2) : ℤ) : ℚ) := by
      exact_mod_cast sub_nonneg.2 hw0
    have h2 : ((min (w + p1) (w + p2) : ℤ) : ℚ) ≤ ((max (w + p1) (w + p2) : ℤ) : ℚ) := by
      exact_mod_cast hw0
    push_cast at h1 h2 ⊢
    linarith
  · intro h3
    apply rhe_lt_of_add_le
    have h1 : (3 : ℚ) ≤ ((max (w + p1) (w + p2) - min (w + p1) (w + p2) : ℤ) : ℚ) := by
      exact_mod_cast hdiff ▸ h3
    push_cast at h1 ⊢
    linarith

/-- C6 witness for the amended strictness: edges 0 and 3 are 3 columns
apart and yield strictly ordered centres. -/
theorem x_pts_order_witness : (x_pts 0 0 3).1 < (x_pts 0 0 3).2 :=
  (x_pts_order 0 0 3).2 (by decide)

/-!  C7: invariance of the error array under a uniform constant shift.  -/

theorem getD_map_add (xs : List ℚ) (c : ℚ) (j : ℕ) (hj : j < xs.length) :
    (xs.map (· + c)).getD j 0 = xs.getD j 0 + c := by
  rw [List.getD_eq_getElem?_getD, List.getD_eq_getElem?_getD, List.getElem?_map,
    List.getElem?_eq_getElem hj]
  rfl

theorem roll_map_add (xs : List ℚ) (c : ℚ) (k : ℤ) :
    roll (xs.map (· + c)) k = (roll xs k).map (· + c) := by
  unfold roll
  rw [List.length_map, List.map_map]
  apply List.map_congr_left
  intro i hi
  have hin : i < xs.length := List.mem_range.1 hi
  have hn : (0 : ℤ) < (xs.length : ℤ) := by exact_mod_cast Nat.lt_of_le_of_lt (Nat.zero_le i) hin
  have h0 : 0 ≤ ((i : ℤ) - k).emod xs.length := Int.emod_nonneg _ (by omega)
  have h1 : ((i : ℤ) - k).emod xs.length < (xs.length : ℤ) := Int.emod_lt_of_pos _ hn
  have h2 : (((i : ℤ) - k).emod xs.length).toNat < xs.length := by omega
  simp only [Function.comp]
  exact getD_map_add xs c _ h2

theorem zipWith_sub_map_add (ys xs : List ℚ) (c : ℚ) :
    List.zipWith (· - ·) (ys.map (· + c)) (xs.map (· + c)) = List.zipWith (· - ·) ys xs := by
  induction ys generalizing xs with
  | nil => simp
  | cons y ys ih =>
    cases xs with
    | nil => simp
    | cons x xs =>
      simp only [List.map_cons, List.zipWith_cons_cons, ih]
      congr 1
      ring

theorem validResiduals_map_add (sR sL : List ℚ) (c : ℚ) (lag : ℤ) :
    validResiduals (sR.map (· + c)) (sL.map (· + c)) lag = validResiduals sR sL lag := by
  unfold validResiduals
  rw [roll_map_add, zipWith_sub_map_add]

theorem errAtLag_map_add (sR sL : List ℚ) (c : ℚ) (lag : ℤ) :
    errAtLag (sR.map (· + c)) (sL.map (· + c)) lag = errAtLag sR sL lag := by
  unfold errAtLag
  rw [validResiduals_map_add]

/-- C7: the array of per-lag errors is unchanged when the same constant
is added uniformly to both static profiles, since every residual
`R + c - (roll (L + c)) = R - roll L` is unchanged. -/
theorem errArray_const_shift_invariant (sR sL : List ℚ) (c : ℚ) :
    errArray (sR.map (· + c)) (sL.map (· + c)) = errArray sR sL := by
  unfold errArray
  apply List.map_congr_left
  intro lag _
  exact errAtLag_map_add sR sL c lag

/-!  C1: the per-lag error metric.  -/

theorem map_getD_range (l : List ℚ) :
    (List.range l.length).map (fun (i : ℕ) => l.getD i 0) = l := by
  induction l with
  | nil => simp
  | cons a t ih =>
    rw [List.length_cons, List.range_succ_eq_map, List.map_cons, List.map_map]
    congr 1

theorem filter_le_map_getD (l : List ℚ) (k : ℕ) :
    ((List.range l.length).filter fun (i : ℕ) => decide (k ≤ i)).map
      (fun (i : ℕ) => l.getD i 0) = l.drop k := by
  induction l generalizing k with
  | nil => simp
  | cons a t ih =>
    cases k with
    | zero =>
      rw [List.filter_eq_self.2 (by simp), map_getD_range]
      rfl
    | succ k =>
      rw [List.length_cons, List.range_succ_eq_map, List.filter_cons, if_neg (by simp)]
      rw [List.filter_map,
        List.filter_congr (by
          intro x _
          show decide (k + 1 ≤ Nat.succ x) = decide (k ≤ x)
          simp [Nat.succ_le_succ_iff]),
        List.map_map,
        show ((fun (i : ℕ) => (a :: t).getD i 0) ∘ Nat.succ) = fun (i : ℕ) => t.getD i 0
          from funext fun i => List.getD_cons_succ,
        List.drop_succ_cons]
      exact ih k

theorem filter_lt_map_getD (l : List ℚ) (m : ℕ) :
    ((List.range l.length).filter fun (i : ℕ) => decide (i < m)).map
      (fun (i : ℕ) => l.getD i 0) = l.take m := by
  induction l generalizing m with
  | nil => simp
  | cons a t ih =>
    cases m with
    | zero =>
      rw [List.filter_eq_nil_iff.2 (by intro x _; simp), List.map_nil, List.take_zero]
    | succ m =>
      rw [List.length_cons, List.range_succ_eq_map, List.filter_cons, if_pos (by simp)]
      rw [List.map_cons, List.filter_map,
        List.filter_congr (by
          intro x _
          show decide (Nat.succ x < m + 1) = decide (x < m)
          simp [Nat.succ_lt_succ_iff]),
        List.map_map,
        show ((fun (i : ℕ) => (a :: t).getD i 0) ∘ Nat.succ) = fun (i : ℕ) => t.getD i 0
          from funext fun i => List.getD_cons_succ,
        List.take_succ_cons]
      rw [ih m]
      rfl

/-- C1 counterexample: the claim fails on the code in two ways.  With
static segments `R = [5, 2, -2]`, `L = [0, 0, 0]` at lag 1 the valid
residuals are `[2, -2]`: the error from the code is `|mean| = 0`, the claimed
mean of absolute residuals is `2`.  With `R = [1, 1]`, `L = [0, 0]` at
lag 0 the code NaNs every sample (`difference[0:]`) and assigns the
sentinel `1e10`, while the claimed masking (empty wrapped portion at
lag 0) gives error `1`. -/
theorem errAtLag_claim_counterexample :
    claimedErrAtLag [5, 2, -2] [0, 0, 0] 1 ≠ errAtLag [5, 2, -2] [0, 0, 0] 1 ∧
    claimedErrAtLag [1, 1] [0, 0] 0 ≠ errAtLag [1, 1] [0, 0] 0 := by
  with_unfolding_all decide

theorem specVals_eq (diff : List ℚ) (lag : ℤ) :
    specVals diff lag =
      (if 0 < lag then diff.drop lag.toNat
       else if lag < 0 then diff.take ((diff.length : ℤ) + lag).toNat else []) := by
  unfold specVals specValidIdx
  rcases lt_trichotomy lag 0 with hneg | hzero | hpos
  · rw [if_neg (by omega), if_pos hneg]
    have hcong : ∀ x ∈ List.range diff.length,
        decide ((0 < lag ∧ lag ≤ (x : ℤ)) ∨ (lag < 0 ∧ (x : ℤ) < (diff.length : ℤ) + lag))
          = decide (x < ((diff.length : ℤ) + lag).toNat) := by
      intro x _
      apply decide_eq_decide.2
      omega
    rw [List.filter_congr hcong, filter_lt_map_getD]
  · subst hzero
    rw [if_neg (by omega), if_neg (by omega),
      List.filter_eq_nil_iff.2 (by simp), List.map_nil]
  · rw [if_pos hpos]
    have hcong : ∀ x ∈ List.range diff.length,
        decide ((0 < lag ∧ lag ≤ (x : ℤ)) ∨ (lag < 0 ∧ (x : ℤ) < (diff.length : ℤ) + lag))
          = decide (lag.toNat ≤ x) := by
      intro x _
      apply decide_eq_decide.2
      omega
    rw [List.filter_congr hcong, filter_le_map_getD]

theorem specVals_eq_validResiduals (sR sL : List ℚ) (lag : ℤ) :
    specVals (List.zipWith (· - ·) sR (roll sL lag)) lag = validResiduals sR sL lag := by
  rw [specVals_eq]
  rfl

/-- C1 amended: the error assigned to a lag is the absolute value of
the mean of the residuals (static-right minus circularly shifted
static-left) over the valid indices, where index `i` is valid exactly
when `0 < lag ∧ lag ≤ i` or `lag < 0 ∧ i < n + lag` — so at lag 0 every
sample is invalid — and the sentinel `1e10` is assigned when no sample
is valid. -/
theorem errAtLag_spec_characterisation (sR sL : List ℚ) (lag : ℤ) :
    errAtLag sR sL lag = specErrAtLag sR sL lag := by
  unfold errAtLag specErrAtLag specErrOf
  rw [specVals_eq_validResiduals]

/-!  C2: identical profiles.  -/

theorem zipWith_sub_self (l : List ℚ) :
    List.zipWith (· - ·) l l = List.replicate l.length 0 := by
  induction l with
  | nil => rfl
  | cons a t ih =>
    rw [List.zipWith_cons_cons, List.length_cons, List.replicate_succ, ih, sub_self]

theorem getD_replicate_zero (n j : ℕ) : (List.replicate n (0 : ℚ)).getD j 0 = 0 := by
  rw [List.getD_eq_getElem?_getD]
  rcases lt_or_le j n with hj | hj
  · rw [List.getElem?_replicate, if_pos hj]
    rfl
  · rw [List.getElem?_eq_none]
    · rfl
    · rwa [List.length_replicate]

theorem isPeakAt_replicate_zero (n : ℕ) (h : ℚ) (i : ℕ) :
    isPeakAt (List.replicate n (0 : ℚ)) h i = false := by
  unfold isPeakAt
  rw [getD_replicate_zero, getD_replicate_zero]
  simp

theorem findHighestPeak_replicate_zero (n : ℕ) (h : ℚ) :
    findHighestPeak (List.replicate n (0 : ℚ)) h = none := by
  unfold findHighestPeak
  rw [List.filter_eq_nil_iff.2 fun x _ => by rw [isPeakAt_replicate_zero]; exact fun hc => nomatch hc]
  rfl

theorem peakOf_self_none (p : List ℚ) : peakOf p p = none := by
  unfold peakOf deltaOf
  rw [zipWith_sub_self, List.map_replicate, abs_zero, findHighestPeak_replicate_zero]

theorem shiftMatch_self_none (p : List ℚ) (r : ℚ) : shiftMatch p p r = none := by
  unfold shiftMatch
  split
  · rw [peakOf_self_none]
    rfl
  · rfl

/-- C2 counterexample: with the identical pair `[0, 10, 0]` the matcher
does not return `some 0`: the all-zero delta has no peak, `peaks[0]`
fails, and no result is produced. -/
theorem shiftMatch_identical_counterexample :
    shiftMatch [0, 10, 0] [0, 10, 0] 1 ≠ some 0 := by
  rw [shiftMatch_self_none]
  exact fun hc => nomatch hc

/-- C2 amended: for identical input profiles the matcher produces no
result at all (rather than 0): the delta profile is identically zero, so
the peak search finds no local maximum and the `peaks[0]` indexing
fails. -/
theorem shiftMatch_identical_none (p : List ℚ) (r : ℚ) : shiftMatch p p r = none :=
  shiftMatch_self_none p r

/-!  C3, C10: decomposition of a successful match.  -/

theorem interp5_length (p : List ℚ) : (interp5 p).length = 5 * (p.length - 1) + 1 := by
  unfold interp5
  rw [List.length_map, List.length_range]

theorem shiftMatch_some_decomp (pL pR : List ℚ) (r d : ℚ)
    (h : shiftMatch pL pR r = some d) :
    pL.length = pR.length ∧ 2 ≤ pL.length ∧
    ∃ p, peakOf pL pR = some p ∧
      d = (signOf (deltaOf pL pR) p : ℚ) * |(resolvedShift pL pR p : ℚ)| * (1/5) * r := by
  unfold shiftMatch at h
  by_cases hg : pL.length = pR.length ∧ 2 ≤ pL.length
  · rw [if_pos hg] at h
    refine ⟨hg.1, hg.2, ?_⟩
    cases hp : peakOf pL pR with
    | none =>
      rw [hp, Option.none_bind] at h
      exact absurd h (by simp)
    | some p =>
      rw [hp, Option.some_bind] at h
      by_cases he : (pySlice (deltaOf pL pR) ((p : ℤ) - 10) ((p : ℤ) + 10)).isEmpty
      · rw [if_pos he] at h
        exact absurd h (by simp)
      · rw [if_neg he] at h
        exact ⟨p, rfl, (Option.some.inj h).symm⟩
  · rw [if_neg hg] at h
    exact absurd h (by simp)

theorem signOf_cases (delta : List ℚ) (p : ℕ) :
    signOf delta p = 1 ∨ signOf delta p = -1 := by
  unfold signOf
  split
  · left
    rfl
  · right
    rfl

theorem lagList_getD_bound (k : ℕ) : -50 ≤ lagList.getD k 0 ∧ lagList.getD k 0 ≤ 50 := by
  unfold lagList
  rw [List.getD_eq_getElem?_getD, List.getElem?_map]
  rcases lt_or_le k 101 with hk | hk
  · rw [List.getElem?_range hk]
    simp
    omega
  · rw [List.getElem?_eq_none (by rwa [List.length_range])]
    simp

theorem abs_selectedLag_le (sR sL : List ℚ) : |selectedLag sR sL| ≤ 50 := by
  unfold selectedLag
  have hb := lagList_getD_bound ((errArray sR sL).findIdx fun e => decide (e = minPosErr sR sL))
  rw [abs_le]
  omega

theorem abs_resolvedShift_le (pL pR : List ℚ) (p : ℕ) : |resolvedShift pL pR p| ≤ 50 := by
  unfold resolvedShift
  split
  · rw [abs_neg]
    exact abs_selectedLag_le _ _
  · exact abs_selectedLag_le _ _

/-- C3: for equal-length profiles with at least 2 samples, a successful
match works on the 5x linearly interpolated profiles (`interp5`, of
length `5*(n-1)+1`), and the returned value is exactly
`sign * |shift| * (1/5) * res_y` for the resolved sign and the selected
minimum-error lag. -/
theorem shiftMatch_result_formula (pL pR : List ℚ) (r d : ℚ)
    (h : shiftMatch pL pR r = some d) :
    2 ≤ pL.length ∧ pL.length = pR.length ∧
    (interp5 pL).length = 5 * (pL.length - 1) + 1 ∧
    (interp5 pR).length = 5 * (pR.length - 1) + 1 ∧
    deltaOf pL pR = List.zipWith (· - ·) (interp5 pL) (interp5 pR) ∧
    ∃ p, peakOf pL pR = some p ∧
      d = (signOf (deltaOf pL pR) p : ℚ) * |(resolvedShift pL pR p : ℚ)| * (1/5) * r := by
  obtain ⟨hlen, h2, hp⟩ := shiftMatch_some_decomp pL pR r d h
  exact ⟨h2, hlen, interp5_length pL, interp5_length pR, rfl, hp⟩

/-- C10: every successful measurement is bounded in magnitude by
`10 * res_y`, since the selected lag lies in `[-50, 50]` and the result
is `sign * |shift| * (1/5) * res_y`. -/
theorem shiftMatch_bounded (pL pR : List ℚ) (r d : ℚ) (hr : 0 ≤ r)
    (h : shiftMatch pL pR r = some d) : |d| ≤ 10 * r := by
  obtain ⟨_, _, p, _, hd⟩ := shiftMatch_some_decomp pL pR r d h
  have hs : |(resolvedShift pL pR p : ℚ)| ≤ 50 := by
    have h1 : ((|resolvedShift pL pR p| : ℤ) : ℚ) ≤ ((50 : ℤ) : ℚ) :=
      Int.cast_le.2 (abs_resolvedShift_le pL pR p)
    rwa [Int.cast_abs, Int.cast_ofNat] at h1
  have hσ : |(signOf (deltaOf pL pR) p : ℚ)| = 1 := by
    rcases signOf_cases (deltaOf pL pR) p with hσ | hσ <;> rw [hσ] <;> norm_num
  have habs : |d| = |(signOf (deltaOf pL pR) p : ℚ)| * |(resolvedShift pL pR p : ℚ)| *
      (1/5) * r := by
    rw [hd, abs_mul, abs_mul, abs_mul, abs_abs]
    rw [abs_of_nonneg hr, show |(1/5 : ℚ)| = 1/5 from by norm_num]
  rw [habs, hσ, one_mul]
  have h5 : (0 : ℚ) ≤ 1/5 * r := by positivity
  calc |(resolvedShift pL pR p : ℚ)| * (1/5) * r
      = |(resolvedShift pL pR p : ℚ)| * (1/5 * r) := by ring
    _ ≤ 50 * (1/5 * r) := mul_le_mul_of_nonneg_right hs h5
    _ = 10 * r := by ring

/-!  Concrete evaluations of the matcher for the witnesses.  -/

theorem foldl_min_replicate (n : ℕ) (x : ℚ) :
    List.foldl min x (List.replicate n x) = x := by
  induction n with
  | zero => rfl
  | succ n ih => rw [List.replicate_succ, List.foldl_cons, min_self]; exact ih

theorem minPosErr_zeros : minPosErr [0, 0, 0, 0] [0, 0, 0, 0] = sentinelErr := by
  have hfil : posErrs [0, 0, 0, 0] [0, 0, 0, 0] = List.replicate 95 sentinelErr := by
    unfold posErrs
    rw [show errArray [0, 0, 0, 0] [0, 0, 0, 0]
        = List.replicate 47 sentinelErr ++ [0, 0, 0] ++ [sentinelErr] ++ [0, 0, 0] ++
          List.replicate 47 sentinelErr from by with_unfolding_all rfl]
    with_unfolding_all rfl
  unfold minPosErr
  rw [hfil]
  rw [show (List.replicate 95 sentinelErr).headD 0 = sentinelErr from by with_unfolding_all rfl]
  exact foldl_min_replicate 95 sentinelErr

theorem selectedLag_zeros : selectedLag [0, 0, 0, 0] [0, 0, 0, 0] = -50 := by
  unfold selectedLag
  rw [minPosErr_zeros]
  rw [show errArray [0, 0, 0, 0] [0, 0, 0, 0]
      = sentinelErr :: (List.replicate 46 sentinelErr ++ [0, 0, 0] ++ [sentinelErr] ++
        [0, 0, 0] ++ List.replicate 47 sentinelErr) from by with_unfolding_all rfl]
  rw [List.findIdx_cons, decide_eq_true (show sentinelErr = sentinelErr from rfl), cond_true]
  with_unfolding_all rfl

set_option maxRecDepth 100000 in
theorem shiftMatch_eval_a : shiftMatch [0, 10, 0, 0] [0, 0, 0, 0] 1 = some (-10) := by
  have hpk : peakOf [0, 10, 0, 0] [0, 0, 0, 0] = some 5 := by with_unfolding_all rfl
  have hsL : pySlice (interp5 ([0, 10, 0, 0] : List ℚ)) (((5 : ℕ) : ℤ) - 10)
      (((5 : ℕ) : ℤ) + 10) = [0, 0, 0, 0] := by with_unfolding_all rfl
  have hsR : pySlice (interp5 ([0, 0, 0, 0] : List ℚ)) (((5 : ℕ) : ℤ) - 10)
      (((5 : ℕ) : ℤ) + 10) = [0, 0, 0, 0] := by with_unfolding_all rfl
  have hsgn : signOf (deltaOf [0, 10, 0, 0] [0, 0, 0, 0]) 5 = -1 := by with_unfolding_all rfl
  have hshift : resolvedShift [0, 10, 0, 0] [0, 0, 0, 0] 5 = -50 := by
    unfold resolvedShift
    rw [hsgn, if_neg (by decide), hsL, hsR, selectedLag_zeros]
  unfold shiftMatch
  rw [if_pos ⟨rfl, by norm_num⟩, hpk, Option.some_bind,
    if_neg (by with_unfolding_all decide), hsgn, hshift]
  norm_num

set_option maxRecDepth 100000 in
theorem shiftMatch_eval_b : shiftMatch [0, 20, 0, 0] [0, 0, 0, 0] 1 = some (-10) := by
  have hpk : peakOf [0, 20, 0, 0] [0, 0, 0, 0] = some 5 := by with_unfolding_all rfl
  have hsL : pySlice (interp5 ([0, 20, 0, 0] : List ℚ)) (((5 : ℕ) : ℤ) - 10)
      (((5 : ℕ) : ℤ) + 10) = [0, 0, 0, 0] := by with_unfolding_all rfl
  have hsR : pySlice (interp5 ([0, 0, 0, 0] : List ℚ)) (((5 : ℕ) : ℤ) - 10)
      (((5 : ℕ) : ℤ) + 10) = [0, 0, 0, 0] := by with_unfolding_all rfl
  have hsgn : signOf (deltaOf [0, 20, 0, 0] [0, 0, 0, 0]) 5 = -1 := by with_unfolding_all rfl
  have hshift : resolvedShift [0, 20, 0, 0] [0, 0, 0, 0] 5 = -50 := by
    unfold resolvedShift
    rw [hsgn, if_neg (by decide), hsL, hsR, selectedLag_zeros]
  unfold shiftMatch
  rw [if_pos ⟨rfl, by norm_num⟩, hpk, Option.some_bind,
    if_neg (by with_unfolding_all decide), hsgn, hshift]
  norm_num

/-- C3 witness: the profile pair `([0,10,0,0], [0,0,0,0])` at
`res_y = 1` matches successfully with value `-10`, and the formula of
`shiftMatch_result_formula` holds there. -/
theorem shiftMatch_result_formula_witness :
    shiftMatch [0, 10, 0, 0] [0, 0, 0, 0] 1 = some (-10) ∧
    (2 ≤ ([0, 10, 0, 0] : List ℚ).length ∧
     ([0, 10, 0, 0] : List ℚ).length = ([0, 0, 0, 0] : List ℚ).length ∧
     (interp5 [0, 10, 0, 0]).length = 5 * (([0, 10, 0, 0] : List ℚ).length - 1) + 1 ∧
     (interp5 [0, 0, 0, 0]).length = 5 * (([0, 0, 0, 0] : List ℚ).length - 1) + 1 ∧
     deltaOf [0, 10, 0, 0] [0, 0, 0, 0] =
       List.zipWith (· - ·) (interp5 [0, 10, 0, 0]) (interp5 [0, 0, 0, 0]) ∧
     ∃ p, peakOf [0, 10, 0, 0] [0, 0, 0, 0] = some p ∧
       (-10 : ℚ) = (signOf (deltaOf [0, 10, 0, 0] [0, 0, 0, 0]) p : ℚ) *
         |(resolvedShift [0, 10, 0, 0] [0, 0, 0, 0] p : ℚ)| * (1/5) * 1) :=
  ⟨shiftMatch_eval_a, shiftMatch_result_formula _ _ _ _ shiftMatch_eval_a⟩

/-- C10 witness: the successful measurement on
`([0,20,0,0], [0,0,0,0])` at `res_y = 1` returns `-10`, whose magnitude
is within the bound `10 * res_y`. -/
theorem shiftMatch_bounded_witness : |(-10 : ℚ)| ≤ 10 * 1 :=
  shiftMatch_bounded [0, 20, 0, 0] [0, 0, 0, 0] 1 (-10) (by norm_num) shiftMatch_eval_b

/-!  C8: batch orchestration of `run`.  -/

theorem runMeasure_cons (measure : String → Except String ℚ) (d : String)
    (rest : List String) :
    runMeasure measure (d :: rest) =
      match measure d with
      | Except.error e => Except.error (logMsg d e)
      | Except.ok v =>
        match runMeasure measure rest with
        | Except.error e => Except.error e
        | Except.ok l => Except.ok ((d, round2 v) :: l) := rfl

theorem runMeasure_cons_error (measure : String → Except String ℚ) (d : String)
    (rest : List String) (e : String) (h : measure d = Except.error e) :
    runMeasure measure (d :: rest) = Except.error (logMsg d e) := by
  rw [runMeasure_cons, h]

theorem runMeasure_cons_ok (measure : String → Except String ℚ) (d : String)
    (rest : List String) (v : ℚ) (h : measure d = Except.ok v) :
    runMeasure measure (d :: rest) =
      match runMeasure measure rest with
      | Except.error e => Except.error e
      | Except.ok l => Except.ok ((d, round2 v) :: l) := by
  rw [runMeasure_cons, h]

/-- C8: during a batch run, a successful pass produces, for every
processed image, an entry holding its measurement rounded to two
decimals; and if the measurement of an image fails (all earlier ones
having succeeded), the run aborts with the logged message naming that
description of that image and the error text, with no partial-success
aggregation. -/
theorem runMeasure_batch_behaviour (measure : String → Except String ℚ)
    (dcms : List String) :
    (∀ l, runMeasure measure dcms = Except.ok l →
      ∀ d ∈ dcms, ∃ v, measure d = Except.ok v ∧ (d, round2 v) ∈ l) ∧
    (∀ pre d e post, dcms = pre ++ d :: post →
      (∀ x ∈ pre, ∃ v, measure x = Except.ok v) →
      measure d = Except.error e →
      runMeasure measure dcms = Except.error (logMsg d e)) := by
  constructor
  · induction dcms with
    | nil =>
      intro l _ d hd
      exact absurd hd (List.not_mem_nil d)
    | cons a rest ih =>
      intro l hl d hd
      cases hm : measure a with
      | error e =>
        rw [runMeasure_cons_error measure a rest e hm] at hl
        exact absurd hl (by simp)
      | ok v =>
        rw [runMeasure_cons_ok measure a rest v hm] at hl
        cases hrec : runMeasure measure rest with
        | error e =>
          rw [hrec] at hl
          exact absurd hl (by simp)
        | ok l2 =>
          rw [hrec] at hl
          have hl2 : (a, round2 v) :: l2 = l := by
            simpa using hl
          rcases List.mem_cons.1 hd with hda | hdr
          · subst hda
            exact ⟨v, hm, by rw [← hl2]; exact List.mem_cons_self _ _⟩
          · obtain ⟨v2, hv2, hmem⟩ := ih l2 hrec d hdr
            exact ⟨v2, hv2, by rw [← hl2]; exact List.mem_cons_of_mem _ hmem⟩
  · intro pre d e post hdc hpre hm
    subst hdc
    revert hpre
    induction pre with
    | nil =>
      intro _
      rw [List.nil_append]
      exact runMeasure_cons_error measure d post e hm
    | cons a pre ih =>
      intro hpre
      obtain ⟨v, hv⟩ := hpre a (List.mem_cons_self _ _)
      rw [List.cons_append, runMeasure_cons_ok measure a _ v hv,
        ih fun x hx => hpre x (List.mem_cons_of_mem _ hx)]

/-- C8 witness: with a measurement that succeeds on image "a" and
fails on image "b" with error "boom", the batch over
`["a", "b", "c"]` aborts with the logged message for "b". -/
theorem runMeasure_batch_behaviour_witness :
    runMeasure (fun d => if d = "b" then Except.error "boom" else Except.ok (37/10))
      ["a", "b", "c"] = Except.error (logMsg "b" "boom") :=
  (runMeasure_batch_behaviour
      (fun d => if d = "b" then Except.error "boom" else Except.ok (37/10))
      ["a", "b", "c"]).2 ["a"] "b" "boom" ["c"] rfl
    (by
      intro x hx
      rcases List.mem_singleton.1 hx with hxa
      subst hxa
      exact ⟨37/10, by rw [if_neg (by decide)]⟩)
    (by rw [if_pos rfl])

end ACRSlicePosition
